import Mathlib

/-!
Verification of the autoencoder-file-sorter repository.

The development shallowly embeds the three Python source files:

* `models/visual_models.py` — the `VisAutoEncoder.__init__` architecture
  builder: the per-layer spatial-size computation (`size_list`), the
  encoder module list, and the decoder of transposed convolutions with
  their `output_padding` choice.
* `embedding.py` — `encode_image`, `decode_images` and the
  `generate_embeddings` pipeline (manifold embedding and k-means are
  external sklearn calls, modelled as function parameters constrained by
  their documented contracts).
* `train.py` — the mode dispatch of `train`.

Python integers are `Int`; Python `//` is floor division, `Int.fdiv`.
-/

/-- One entry of `filter_channel_sizes`:
`(in_channels, out_channels, kernel_size, stride, padding)`. -/
structure ConvSpec where
  in_channels : Int
  out_channels : Int
  kernel : Int
  stride : Int
  padding : Int
deriving DecidableEq, Repr, Inhabited

/-- The `Conv2d` spatial size formula used at `visual_models.py:64-69`:
`out = ((n + 2*padding - (kernel - 1) - 1) // stride) + 1`. -/
def conv_out_dim (n k s p : Int) : Int :=
  (n + 2 * p - (k - 1) - 1).fdiv s + 1

/-- One encoder layer's effect on the `(h, w)` pair: the same scalar
kernel, stride and padding are applied to both dimensions. -/
def convStep (f : ConvSpec) (sz : Int × Int) : Int × Int :=
  (conv_out_dim sz.1 f.kernel f.stride f.padding,
   conv_out_dim sz.2 f.kernel f.stride f.padding)

/-- `size_list` as built by the loop at `visual_models.py:44-70`: the
input size followed by each layer's output size. -/
def size_list : List ConvSpec → Int × Int → List (Int × Int)
  | [], sz => [sz]
  | f :: rest, sz => sz :: size_list rest (convStep f sz)

/-- The encoder's final spatial size (the last entry of `size_list`). -/
def enc_out : List ConvSpec → Int × Int → Int × Int
  | [], sz => sz
  | f :: rest, sz => enc_out rest (convStep f sz)

theorem size_list_length (specs : List ConvSpec) (sz : Int × Int) :
    (size_list specs sz).length = specs.length + 1 := by
  induction specs generalizing sz with
  | nil => rfl
  | cons f rest ih => simp [size_list, ih]

theorem size_list_ne_nil (specs : List ConvSpec) (sz : Int × Int) :
    size_list specs sz ≠ [] := by
  cases specs <;> simp [size_list]

theorem size_list_getD_zero (specs : List ConvSpec) (sz : Int × Int) :
    (size_list specs sz).getD 0 (0, 0) = sz := by
  cases specs <;> rfl

theorem size_list_getD_succ (specs : List ConvSpec) (sz : Int × Int)
    (i : Nat) (hi : i < specs.length) :
    (size_list specs sz).getD (i + 1) (0, 0) =
      convStep (specs.getD i default) ((size_list specs sz).getD i (0, 0)) := by
  induction specs generalizing sz i with
  | nil => exact absurd hi (Nat.not_lt_zero i)
  | cons f rest ih =>
    cases i with
    | zero => cases rest <;> rfl
    | succ j =>
      have hj : j < rest.length := Nat.lt_of_succ_lt_succ hi
      simpa [size_list] using ih (convStep f sz) j hj

theorem enc_out_eq_getLast (specs : List ConvSpec) (sz : Int × Int) :
    enc_out specs sz = (size_list specs sz).getLastD sz := by
  induction specs generalizing sz with
  | nil => rfl
  | cons f rest ih =>
    have hne := size_list_ne_nil rest (convStep f sz)
    rw [enc_out, size_list, List.getLastD_cons, ih]
    cases h : size_list rest (convStep f sz) with
    | nil => exact absurd h hne
    | cons a l => rw [List.getLastD_cons, List.getLastD_cons]

/-- C2: during construction with an `n`-layer specification list, the
builder records a size list of length `n + 1` whose first entry is the
input size and whose `(i+1)`-th entry is obtained from the `i`-th by the
`Conv2d` size formula, applied independently to height and width. -/
theorem claim2_size_list_recurrence (specs : List ConvSpec) (sz : Int × Int)
    (i : Nat) (hi : i < specs.length) :
    (size_list specs sz).length = specs.length + 1 ∧
    (size_list specs sz).getD 0 (0, 0) = sz ∧
    (size_list specs sz).getD (i + 1) (0, 0) =
      (conv_out_dim ((size_list specs sz).getD i (0, 0)).1
        (specs.getD i default).kernel (specs.getD i default).stride
        (specs.getD i default).padding,
       conv_out_dim ((size_list specs sz).getD i (0, 0)).2
        (specs.getD i default).kernel (specs.getD i default).stride
        (specs.getD i default).padding) :=
  ⟨size_list_length specs sz, size_list_getD_zero specs sz,
   size_list_getD_succ specs sz i hi⟩

/-- Witness for C2 on the three-layer example of `test_autoencoder()`. -/
theorem claim2_size_list_recurrence_witness :
    (1 : Nat) < ([(⟨3, 128, 7, 1, 4⟩ : ConvSpec), ⟨128, 256, 3, 2, 2⟩,
      ⟨256, 512, 3, 2, 2⟩] : List ConvSpec).length ∧
    (size_list [⟨3, 128, 7, 1, 4⟩, ⟨128, 256, 3, 2, 2⟩, ⟨256, 512, 3, 2, 2⟩]
      (256, 256)).getD 2 (0, 0) = (130, 130) :=
  ⟨by decide,
   by
    have h := (claim2_size_list_recurrence
      [⟨3, 128, 7, 1, 4⟩, ⟨128, 256, 3, 2, 2⟩, ⟨256, 512, 3, 2, 2⟩]
      (256, 256) 1 (by decide)).2.2
    rw [h]; decide⟩

/-- One decoder layer as added at `visual_models.py:102-109`:
`ConvTranspose2d` parameters including the chosen `output_padding`. -/
structure DeconvSpec where
  in_channels : Int
  out_channels : Int
  kernel : Int
  stride : Int
  padding : Int
  output_padding : Int
deriving DecidableEq, Repr, Inhabited

/-- The estimated `ConvTranspose2d` output size computed at
`visual_models.py:92-93`: `(n - 1) * stride - 2 * padding + (kernel - 1) + 1`. -/
def deconv_est (n k s p : Int) : Int :=
  (n - 1) * s - 2 * p + (k - 1) + 1

/-- The actual `ConvTranspose2d` spatial output size (PyTorch formula with
`dilation = 1`): `(n - 1) * stride - 2 * padding + (kernel - 1) + output_padding + 1`. -/
def deconv_out_dim (n k s p op : Int) : Int :=
  (n - 1) * s - 2 * p + (k - 1) + op + 1

/-- The decoder layer built for one reversed filter spec `f`, from the
current reversed size `cur` and the next reversed size `next`
(`visual_models.py:82-109`).  `output_padding = h_in != size_list[i+1][0]`:
a bool used as the integer 0 or 1, computed from the HEIGHT only. -/
def mkDeconv (f : ConvSpec) (cur next : Int × Int) : DeconvSpec :=
  { in_channels := f.out_channels
    out_channels := f.in_channels
    kernel := f.kernel
    stride := f.stride
    padding := f.padding
    output_padding :=
      if deconv_est cur.1 f.kernel f.stride f.padding ≠ next.1 then 1 else 0 }

/-- The decoder-building loop over `reversed(filter_channel_sizes)` walking
the reversed `size_list` (`visual_models.py:78-109`).  At the call site the
size list always has one more entry than the spec list, so the final
catch-all case is never reached. -/
def decoder_aux : List ConvSpec → List (Int × Int) → List DeconvSpec
  | [], _ => []
  | f :: rest, s0 :: s1 :: ss => mkDeconv f s0 s1 :: decoder_aux rest (s1 :: ss)
  | _ :: _, _ => []

/-- The decoder's layers, as produced by `VisAutoEncoder.__init__`. -/
def decoder_layers (specs : List ConvSpec) (sz : Int × Int) : List DeconvSpec :=
  decoder_aux specs.reverse (size_list specs sz).reverse

/-- A transposed-convolution layer's effect on an `(h, w)` pair. -/
def applyDeconv (d : DeconvSpec) (sz : Int × Int) : Int × Int :=
  (deconv_out_dim sz.1 d.kernel d.stride d.padding d.output_padding,
   deconv_out_dim sz.2 d.kernel d.stride d.padding d.output_padding)

/-- Composing the decoder's spatial-size maps in order. -/
def decode_size (ds : List DeconvSpec) (sz : Int × Int) : Int × Int :=
  ds.foldl (fun s d => applyDeconv d s) sz

theorem decoder_aux_length (fs : List ConvSpec) (szs : List (Int × Int))
    (h : szs.length = fs.length + 1) :
    (decoder_aux fs szs).length = fs.length := by
  induction fs generalizing szs with
  | nil => rfl
  | cons f rest ih =>
    match szs, h with
    | s0 :: s1 :: ss, h =>
      simp only [decoder_aux, List.length_cons]
      rw [ih (s1 :: ss) (by simpa using h)]

theorem decoder_aux_getD (fs : List ConvSpec) (szs : List (Int × Int))
    (h : szs.length = fs.length + 1) (i : Nat) (hi : i < fs.length) :
    (decoder_aux fs szs).getD i default =
      mkDeconv (fs.getD i default) (szs.getD i (0, 0)) (szs.getD (i + 1) (0, 0)) := by
  induction fs generalizing szs i with
  | nil => exact absurd hi (Nat.not_lt_zero i)
  | cons f rest ih =>
    match szs, h with
    | s0 :: s1 :: ss, h =>
      cases i with
      | zero => rfl
      | succ j =>
        have hj : j < rest.length := Nat.lt_of_succ_lt_succ hi
        simpa [decoder_aux] using ih (s1 :: ss) (by simpa using h) j hj

theorem getD_reverse {α : Type} [Inhabited α] (l : List α) (i : Nat)
    (hi : i < l.length) (d : α) :
    l.reverse.getD i d = l.getD (l.length - 1 - i) d := by
  rw [List.getD_eq_getElem?_getD, List.getD_eq_getElem?_getD,
    List.getElem?_reverse hi]

/-- C3: the decoder has exactly `n` transposed-convolution layers, and its
`i`-th layer (0-based here) reuses the kernel size, stride and padding of
encoder spec `n - 1 - i` with the channel counts swapped. -/
theorem claim3_decoder_symmetric (specs : List ConvSpec) (sz : Int × Int)
    (i : Nat) (hi : i < specs.length) :
    (decoder_layers specs sz).length = specs.length ∧
    ((decoder_layers specs sz).getD i default).in_channels =
      (specs.getD (specs.length - 1 - i) default).out_channels ∧
    ((decoder_layers specs sz).getD i default).out_channels =
      (specs.getD (specs.length - 1 - i) default).in_channels ∧
    ((decoder_layers specs sz).getD i default).kernel =
      (specs.getD (specs.length - 1 - i) default).kernel ∧
    ((decoder_layers specs sz).getD i default).stride =
      (specs.getD (specs.length - 1 - i) default).stride ∧
    ((decoder_layers specs sz).getD i default).padding =
      (specs.getD (specs.length - 1 - i) default).padding := by
  have hlen : ((size_list specs sz).reverse).length = specs.reverse.length + 1 := by
    simp [size_list_length]
  have hget := decoder_aux_getD specs.reverse ((size_list specs sz).reverse)
    hlen i (by simpa using hi)
  have hrev : specs.reverse.getD i default =
      specs.getD (specs.length - 1 - i) default := getD_reverse specs i hi default
  refine ⟨?_, ?_, ?_, ?_, ?_, ?_⟩
  · unfold decoder_layers
    rw [decoder_aux_length _ _ hlen]
    simp
  all_goals
    unfold decoder_layers
    rw [hget, hrev]
    rfl

/-- Witness for C3 on the spec list of `test_autoencoder()` at `i = 0`. -/
theorem claim3_decoder_symmetric_witness :
    (decoder_layers [(⟨3, 128, 7, 1, 4⟩ : ConvSpec), ⟨128, 256, 3, 2, 2⟩,
        ⟨256, 512, 3, 2, 2⟩] (256, 256)).length = 3 ∧
    ((decoder_layers [(⟨3, 128, 7, 1, 4⟩ : ConvSpec), ⟨128, 256, 3, 2, 2⟩,
        ⟨256, 512, 3, 2, 2⟩] (256, 256)).getD 0 default).in_channels = 512 ∧
    ((decoder_layers [(⟨3, 128, 7, 1, 4⟩ : ConvSpec), ⟨128, 256, 3, 2, 2⟩,
        ⟨256, 512, 3, 2, 2⟩] (256, 256)).getD 0 default).out_channels = 256 := by
  have h := claim3_decoder_symmetric
    [(⟨3, 128, 7, 1, 4⟩ : ConvSpec), ⟨128, 256, 3, 2, 2⟩, ⟨256, 512, 3, 2, 2⟩]
    (256, 256) 0 (by decide)
  refine ⟨h.1, ?_, ?_⟩
  · rw [h.2.1]; decide
  · rw [h.2.2.1]; decide

theorem decoder_aux_heights_only (fs : List ConvSpec) :
    ∀ (szs szs' : List (Int × Int)),
    szs.map Prod.fst = szs'.map Prod.fst →
    decoder_aux fs szs = decoder_aux fs szs' := by
  induction fs with
  | nil => intro szs szs' _; rfl
  | cons f rest ih =>
    intro szs szs' hmap
    cases szs with
    | nil =>
      cases szs' with
      | nil => rfl
      | cons t0 ts => simp at hmap
    | cons s0 stail =>
      cases szs' with
      | nil => simp at hmap
      | cons t0 ttail =>
        cases stail with
        | nil =>
          cases ttail with
          | nil => rfl
          | cons t1 ts => simp at hmap
        | cons s1 ss =>
          cases ttail with
          | nil => simp at hmap
          | cons t1 ts =>
            simp only [List.map_cons, List.cons.injEq] at hmap
            obtain ⟨h0, h1, hrest⟩ := hmap
            have hmk : mkDeconv f s0 s1 = mkDeconv f t0 t1 := by
              unfold mkDeconv
              rw [h0, h1]
            simp only [decoder_aux]
            rw [hmk, ih (s1 :: ss) (t1 :: ts) (by simp [h1, hrest])]

/-- Python treats a bool used as an integer as 0 or 1. -/
theorem bool_as_int_cases (c : Prop) [Decidable c] :
    ((if c then (1 : Int) else 0) = 0 ∨ (if c then (1 : Int) else 0) = 1) ∧
    ((if c then (1 : Int) else 0) = 1 ↔ c) := by
  split_ifs with h
  · exact ⟨Or.inr rfl, iff_of_true rfl h⟩
  · exact ⟨Or.inl rfl, iff_of_false (by norm_num) h⟩

/-- C8: each decoder layer's `output_padding` is 0 or 1; it is 1 exactly
when the estimated transposed-convolution output HEIGHT differs from the
recorded next height in the reversed size list; and the decoder layers
depend only on the heights of the size list (the width estimate is
computed by the source but never consulted), the single height-derived
value being applied to both spatial dimensions. -/
theorem claim8_output_padding_height_only (specs : List ConvSpec)
    (sz : Int × Int) (i : Nat) (hi : i < specs.length) :
    (((decoder_layers specs sz).getD i default).output_padding = 0 ∨
     ((decoder_layers specs sz).getD i default).output_padding = 1) ∧
    (((decoder_layers specs sz).getD i default).output_padding = 1 ↔
      deconv_est (((size_list specs sz).reverse).getD i (0, 0)).1
          (specs.getD (specs.length - 1 - i) default).kernel
          (specs.getD (specs.length - 1 - i) default).stride
          (specs.getD (specs.length - 1 - i) default).padding ≠
        (((size_list specs sz).reverse).getD (i + 1) (0, 0)).1) ∧
    (∀ (fs : List ConvSpec) (szs szs' : List (Int × Int)),
      szs.map Prod.fst = szs'.map Prod.fst →
      decoder_aux fs szs = decoder_aux fs szs') := by
  have hlen : ((size_list specs sz).reverse).length = specs.reverse.length + 1 := by
    simp [size_list_length]
  have hget := decoder_aux_getD specs.reverse ((size_list specs sz).reverse)
    hlen i (by simpa using hi)
  have hrev : specs.reverse.getD i default =
      specs.getD (specs.length - 1 - i) default := getD_reverse specs i hi default
  unfold decoder_layers
  rw [hget, hrev]
  refine ⟨?_, ?_, fun fs szs szs' h => decoder_aux_heights_only fs szs szs' h⟩
  · exact (bool_as_int_cases _).1
  · exact (bool_as_int_cases _).2

/-- Witness for C8 on the spec list of `test_autoencoder()` at `i = 0`. -/
theorem claim8_output_padding_height_only_witness :
    ((decoder_layers [(⟨3, 128, 7, 1, 4⟩ : ConvSpec), ⟨128, 256, 3, 2, 2⟩,
        ⟨256, 512, 3, 2, 2⟩] (256, 256)).getD 0 default).output_padding = 0 ∨
    ((decoder_layers [(⟨3, 128, 7, 1, 4⟩ : ConvSpec), ⟨128, 256, 3, 2, 2⟩,
        ⟨256, 512, 3, 2, 2⟩] (256, 256)).getD 0 default).output_padding = 1 :=
  (claim8_output_padding_height_only
    [(⟨3, 128, 7, 1, 4⟩ : ConvSpec), ⟨128, 256, 3, 2, 2⟩, ⟨256, 512, 3, 2, 2⟩]
    (256, 256) 0 (by decide)).1

theorem deconv_out_dim_eq_est (n k s p op : Int) :
    deconv_out_dim n k s p op = deconv_est n k s p + op := by
  unfold deconv_out_dim deconv_est
  ring

/-- The estimated transposed-convolution size applied to a convolution's
output falls short of the convolution's input by exactly the floor-division
remainder. -/
theorem deconv_est_conv (h k s p : Int) (hs : 0 < s) :
    deconv_est (conv_out_dim h k s p) k s p = h - (h + 2 * p - k) % s := by
  unfold deconv_est conv_out_dim
  rw [show h + 2 * p - (k - 1) - 1 = h + 2 * p - k by ring,
    Int.fdiv_eq_ediv _ (le_of_lt hs)]
  have hdm := Int.ediv_add_emod (h + 2 * p - k) s
  have hmul : ((h + 2 * p - k) / s + 1 - 1) * s = s * ((h + 2 * p - k) / s) := by
    ring
  linarith [hmul, hdm]

/-- One encoder layer followed by its matching decoder layer restores the
height whenever the stride is positive and the division remainder of the
convolution is at most 1 (the chosen `output_padding` can only add 1). -/
theorem conv_deconv_height (h k s p : Int) (hs : 0 < s)
    (hr : (h + 2 * p - k) % s ≤ 1) :
    deconv_out_dim (conv_out_dim h k s p) k s p
      (if deconv_est (conv_out_dim h k s p) k s p ≠ h then 1 else 0) = h := by
  have hest := deconv_est_conv h k s p hs
  have hnn := Int.emod_nonneg (h + 2 * p - k) (ne_of_gt hs)
  rw [deconv_out_dim_eq_est, hest]
  generalize hg : (h + 2 * p - k) % s = r at hr hnn ⊢
  split_ifs with hc <;> omega

/-- The side condition under which the builder's `output_padding` choice
can undo every convolution: positive strides and, at each layer, a
floor-division remainder of at most 1 (true in particular whenever every
stride is 1 or 2). -/
def layers_invertible : List ConvSpec → Int → Prop
  | [], _ => True
  | f :: rest, h => 0 < f.stride ∧ (h + 2 * f.padding - f.kernel) % f.stride ≤ 1 ∧
      layers_invertible rest (conv_out_dim h f.kernel f.stride f.padding)

instance layers_invertible_dec :
    (specs : List ConvSpec) → (h : Int) → Decidable (layers_invertible specs h)
  | [], _ => .isTrue trivial
  | f :: rest, h =>
    have : Decidable
        (layers_invertible rest (conv_out_dim h f.kernel f.stride f.padding)) :=
      layers_invertible_dec rest _
    by unfold layers_invertible; infer_instance

theorem size_list_eq_cons (specs : List ConvSpec) (sz : Int × Int) :
    ∃ t, size_list specs sz = sz :: t := by
  cases specs with
  | nil => exact ⟨[], rfl⟩
  | cons f rest => exact ⟨size_list rest (convStep f sz), rfl⟩

theorem decoder_aux_snoc (fs : List ConvSpec) (szs : List (Int × Int))
    (f : ConvSpec) (z : Int × Int) (h : szs.length = fs.length + 1) :
    decoder_aux (fs ++ [f]) (szs ++ [z]) =
      decoder_aux fs szs ++ [mkDeconv f (szs.getLastD (0, 0)) z] := by
  induction fs generalizing szs with
  | nil =>
    match szs, h with
    | [s0], _ => rfl
  | cons f0 rest ih =>
    match szs, h with
    | s0 :: s1 :: ss, h =>
      have hlen : (s1 :: ss).length = rest.length + 1 := by simpa using h
      have hstep : decoder_aux ((f0 :: rest) ++ [f]) ((s0 :: s1 :: ss) ++ [z]) =
          mkDeconv f0 s0 s1 :: decoder_aux (rest ++ [f]) ((s1 :: ss) ++ [z]) := rfl
      rw [hstep, ih (s1 :: ss) hlen]
      simp [List.getLastD_cons, decoder_aux]

/-- Unfolding `decoder_layers` one encoder layer at a time: the decoder of
`f :: rest` is the decoder of `rest` (from the convolved size) followed by
the transposed convolution matching `f`. -/
theorem decoder_layers_cons (f : ConvSpec) (rest : List ConvSpec)
    (sz : Int × Int) :
    decoder_layers (f :: rest) sz =
      decoder_layers rest (convStep f sz) ++ [mkDeconv f (convStep f sz) sz] := by
  unfold decoder_layers
  obtain ⟨t, ht⟩ := size_list_eq_cons rest (convStep f sz)
  have h1 : size_list (f :: rest) sz = sz :: size_list rest (convStep f sz) := rfl
  rw [h1, List.reverse_cons, List.reverse_cons]
  have hlen : ((size_list rest (convStep f sz)).reverse).length =
      rest.reverse.length + 1 := by simp [size_list_length]
  rw [decoder_aux_snoc rest.reverse ((size_list rest (convStep f sz)).reverse)
    f sz hlen]
  rw [ht, List.reverse_cons, List.getLastD_concat]

theorem decode_size_snoc (ds : List DeconvSpec) (d : DeconvSpec)
    (sz : Int × Int) :
    decode_size (ds ++ [d]) sz = applyDeconv d (decode_size ds sz) := by
  unfold decode_size
  rw [List.foldl_append]
  rfl

theorem convStep_square (f : ConvSpec) (sz : Int × Int) (h : sz.1 = sz.2) :
    (convStep f sz).1 = (convStep f sz).2 := by
  unfold convStep
  rw [h]

/-- C1 (amended): for a SQUARE input and layer specs whose strides are
positive with per-layer floor-division remainder at most 1, composing the
encoder's size maps and then the decoder's transposed-convolution size
maps restores `(H, W)` exactly. -/
theorem claim1_roundtrip_square (specs : List ConvSpec) (sz : Int × Int)
    (hsq : sz.1 = sz.2) (hinv : layers_invertible specs sz.1) :
    decode_size (decoder_layers specs sz) (enc_out specs sz) = sz := by
  induction specs generalizing sz with
  | nil => rfl
  | cons f rest ih =>
    obtain ⟨hs, hr, htail⟩ := hinv
    have hsq' : (convStep f sz).1 = (convStep f sz).2 := convStep_square f sz hsq
    have henc : enc_out (f :: rest) sz = enc_out rest (convStep f sz) := rfl
    rw [decoder_layers_cons, henc, decode_size_snoc,
      ih (convStep f sz) hsq' htail]
    have hh : deconv_out_dim (convStep f sz).1 f.kernel f.stride f.padding
        (if deconv_est (convStep f sz).1 f.kernel f.stride f.padding ≠ sz.1
          then 1 else 0) = sz.1 :=
      conv_deconv_height sz.1 f.kernel f.stride f.padding hs hr
    have hw : deconv_out_dim (convStep f sz).2 f.kernel f.stride f.padding
        (if deconv_est (convStep f sz).1 f.kernel f.stride f.padding ≠ sz.1
          then 1 else 0) = sz.2 := by
      rw [← hsq', ← hsq]
      exact hh
    unfold applyDeconv mkDeconv
    dsimp only
    rw [hh, hw]

/-- C1 as stated is false: with the single layer
`(1, 1, 2, 2, 0)` and the non-square input `(4, 5)`, the `output_padding`
chosen from the height is 0, so the decoder returns `(4, 4)`, not `(4, 5)`. -/
theorem claim1_counterexample :
    decode_size (decoder_layers [⟨1, 1, 2, 2, 0⟩] (4, 5))
      (enc_out [⟨1, 1, 2, 2, 0⟩] (4, 5)) ≠ (4, 5) := by decide

/-- Witness for the amended C1 on the `test_autoencoder()` network at the
square default input size `(256, 256)`. -/
theorem claim1_roundtrip_square_witness :
    ((256 : Int), (256 : Int)).1 = ((256 : Int), (256 : Int)).2 ∧
    layers_invertible [(⟨3, 128, 7, 1, 4⟩ : ConvSpec), ⟨128, 256, 3, 2, 2⟩,
      ⟨256, 512, 3, 2, 2⟩] 256 ∧
    decode_size
      (decoder_layers [(⟨3, 128, 7, 1, 4⟩ : ConvSpec), ⟨128, 256, 3, 2, 2⟩,
        ⟨256, 512, 3, 2, 2⟩] (256, 256))
      (enc_out [(⟨3, 128, 7, 1, 4⟩ : ConvSpec), ⟨128, 256, 3, 2, 2⟩,
        ⟨256, 512, 3, 2, 2⟩] (256, 256)) = (256, 256) :=
  ⟨by decide, by decide,
   claim1_roundtrip_square
     [(⟨3, 128, 7, 1, 4⟩ : ConvSpec), ⟨128, 256, 3, 2, 2⟩, ⟨256, 512, 3, 2, 2⟩]
     (256, 256) (by decide) (by decide)⟩

/-- The `torch.nn` modules that `VisAutoEncoder.__init__` adds to its two
`nn.Sequential` containers.  The dropout probability `dropout_val` is only
forwarded to `nn.Dropout` and never read back, so it is not carried here. -/
inductive PyModule where
  | batchNorm2d (num_features : Int)
  | conv2d (f : ConvSpec)
  | dropout2
  | relu
  | convTranspose2d (d : DeconvSpec)
deriving DecidableEq, Repr

/-- The encoder-building loop body at `visual_models.py:47-75`: for each
filter spec, a `Conv2d`, then (when the `dropout` flag is set) a `Dropout`,
then a `ReLU`. -/
def encoder_modules_aux : List ConvSpec → Bool → List PyModule
  | [], _ => []
  | f :: rest, dp =>
      [PyModule.conv2d f] ++ (if dp then [PyModule.dropout2] else []) ++
        [PyModule.relu] ++ encoder_modules_aux rest dp

/-- The encoder `nn.Sequential`: a `BatchNorm2d` over the input channels
(`visual_models.py:37`) followed by the convolution blocks. -/
def encoder_modules (specs : List ConvSpec) (in_channels : Int)
    (dp : Bool) : List PyModule :=
  PyModule.batchNorm2d in_channels :: encoder_modules_aux specs dp

/-- The decoder `nn.Sequential` (`visual_models.py:80-110`): for each
decoder layer a `ConvTranspose2d` followed by a `ReLU`, nothing else. -/
def decoder_modules_aux : List DeconvSpec → List PyModule
  | [] => []
  | d :: rest => PyModule.convTranspose2d d :: PyModule.relu ::
      decoder_modules_aux rest

def decoder_modules (specs : List ConvSpec) (sz : Int × Int) : List PyModule :=
  decoder_modules_aux (decoder_layers specs sz)

theorem encoder_modules_aux_true (specs : List ConvSpec) :
    encoder_modules_aux specs true =
      specs.bind (fun f => [PyModule.conv2d f, PyModule.dropout2, PyModule.relu]) := by
  induction specs with
  | nil => rfl
  | cons f rest ih => simp [encoder_modules_aux, ih]

theorem encoder_modules_aux_false (specs : List ConvSpec) :
    encoder_modules_aux specs false =
      specs.bind (fun f => [PyModule.conv2d f, PyModule.relu]) := by
  induction specs with
  | nil => rfl
  | cons f rest ih => simp [encoder_modules_aux, ih]

theorem decoder_modules_aux_eq_bind (ds : List DeconvSpec) :
    decoder_modules_aux ds =
      ds.bind (fun d => [PyModule.convTranspose2d d, PyModule.relu]) := by
  induction ds with
  | nil => rfl
  | cons d rest ih => simp [decoder_modules_aux, ih]

/-- C9: the encoder always begins with a `BatchNorm2d` over the input
channels; with the dropout flag set each convolution is followed by one
dropout module and otherwise the encoder has none; and the decoder is
exactly alternating transposed convolutions and `ReLU`s — it never
contains dropout or batch-norm modules, whatever the dropout flag. -/
theorem claim9_module_structure (specs : List ConvSpec) (in_channels : Int)
    (dp : Bool) (sz : Int × Int) :
    (encoder_modules specs in_channels dp).head? =
      some (PyModule.batchNorm2d in_channels) ∧
    encoder_modules specs in_channels true =
      PyModule.batchNorm2d in_channels ::
        specs.bind (fun f => [PyModule.conv2d f, PyModule.dropout2, PyModule.relu]) ∧
    encoder_modules specs in_channels false =
      PyModule.batchNorm2d in_channels ::
        specs.bind (fun f => [PyModule.conv2d f, PyModule.relu]) ∧
    decoder_modules specs sz =
      (decoder_layers specs sz).bind
        (fun d => [PyModule.convTranspose2d d, PyModule.relu]) ∧
    (∀ m ∈ decoder_modules specs sz,
      (∃ d, m = PyModule.convTranspose2d d) ∨ m = PyModule.relu) := by
  refine ⟨rfl, ?_, ?_, ?_, ?_⟩
  · unfold encoder_modules
    rw [encoder_modules_aux_true]
  · unfold encoder_modules
    rw [encoder_modules_aux_false]
  · unfold decoder_modules
    rw [decoder_modules_aux_eq_bind]
  · intro m hm
    unfold decoder_modules at hm
    rw [decoder_modules_aux_eq_bind] at hm
    simp only [List.mem_bind, List.mem_cons] at hm
    obtain ⟨d, _, hd⟩ := hm
    rcases hd with hd | hd
    · exact Or.inl ⟨d, hd⟩
    · simp at hd
      exact Or.inr hd

/-- The Python exceptions the embedded code can raise. -/
inductive PyErr where
  | unboundLocalError (name : String)
  | nameError (name : String)
  | attributeError (msg : String)
  | valueError (msg : String)
deriving DecidableEq, Repr

/-- `train` (`train.py:24-45`), up to its mode dispatch: only a dataset in
`"image"` mode gets a `VisAutoEncoder` built (whose encoder and decoder
module lists are returned); any other mode raises
`AttributeError(f"{mode} mode is not supported")` before a model exists.
The optimizer setup and epoch loop that follow on the success path only
train the already-constructed model, so they are not modelled further. -/
def train (visual_aa : List ConvSpec) (in_channels : Int)
    (in_size : Int × Int) (dp : Bool) (mode : String) :
    Except PyErr (List PyModule × List PyModule) :=
  if mode = "image" then
    Except.ok (encoder_modules visual_aa in_channels dp,
      decoder_modules visual_aa in_size)
  else
    Except.error (PyErr.attributeError (mode ++ " mode is not supported"))

/-- C6: for every dataset mode other than `"image"`, `train` raises an
`AttributeError` and no model is constructed (the error carries no module
lists); the model is built only in `"image"` mode. -/
theorem claim6_train_mode_dispatch (visual_aa : List ConvSpec)
    (in_channels : Int) (in_size : Int × Int) (dp : Bool) (mode : String)
    (hmode : mode ≠ "image") :
    train visual_aa in_channels in_size dp mode =
      Except.error (PyErr.attributeError (mode ++ " mode is not supported")) := by
  unfold train
  rw [if_neg hmode]

/-- Witness for C6: an `"audio"`-mode dataset is rejected. -/
theorem claim6_train_mode_dispatch_witness :
    ("audio" : String) ≠ "image" ∧
    train [] 3 (256, 256) true "audio" =
      Except.error (PyErr.attributeError ("audio" ++ " mode is not supported")) :=
  ⟨by decide, claim6_train_mode_dispatch [] 3 (256, 256) true "audio" (by decide)⟩

/-- A 4-D torch tensor `(batch, channels, height, width)` with row-major
flat data, as produced by `model.encoder(image)`. -/
structure Tensor4 where
  batch : Nat
  channels : Nat
  height : Nat
  width : Nat
  data : List Int
deriving DecidableEq, Repr, Inhabited

/-- `tensor.shape` for a 4-D tensor. -/
def Tensor4.shape (t : Tensor4) : List Nat :=
  [t.batch, t.channels, t.height, t.width]

def t4_entry (t : Tensor4) (b c h w : Nat) : Int :=
  t.data.getD (((b * t.channels + c) * t.height + h) * t.width + w) 0

/-- `encoding_vector.sum(dim = [1, 2])` (`embedding.py:45`): summing a
`(B, C, H, W)` tensor over dimensions 1 and 2 — the CHANNEL and HEIGHT
axes — leaves a `(B, W)` array, flattened here row-major. -/
def sum_dims_1_2 (t : Tensor4) : List Int :=
  (List.range t.batch).bind (fun b =>
    (List.range t.width).map (fun j =>
      ((List.range t.channels).map (fun c =>
        ((List.range t.height).map (fun h => t4_entry t b c h j)).sum)).sum))

/-- `encoding_vector.reshape((-1,))` (`embedding.py:48`). -/
def reshape_flat (t : Tensor4) : List Int := t.data

/-- `encode_image` (`embedding.py:34-49`) applied to the encoder output
`t`.  Python scoping makes `initial_shape` a local of the whole function;
it is assigned only in the `quick = False` branch, so the `return`
statement raises `UnboundLocalError` whenever `quick = True`. -/
def encode_image (t : Tensor4) (quick : Bool) :
    Except PyErr (List Int × List Nat) :=
  let initial_shape : Option (List Nat) := none
  if quick then
    let encoding_vector := sum_dims_1_2 t
    match initial_shape with
    | some s => Except.ok (encoding_vector, s)
    | none => Except.error (PyErr.unboundLocalError "initial_shape")
  else
    let initial_shape := some t.shape
    let encoding_vector := reshape_flat t
    match initial_shape with
    | some s => Except.ok (encoding_vector, s)
    | none => Except.error (PyErr.unboundLocalError "initial_shape")

/-- A concrete encoder output of shape `(1, 2, 3, 4)`. -/
def c5_input : Tensor4 :=
  { batch := 1, channels := 2, height := 3, width := 4,
    data := List.replicate 24 1 }

/-- C5 fails on the code: with the default `quick = True`, `encode_image`
raises `UnboundLocalError` instead of returning a pair (`initial_shape`
is assigned only in the `quick = False` branch), and the computed sum
`encoding.sum(dim=[1,2])` runs over the channel and height axes, so its
length is `batch * width = 4`, not the out-channel count 2 that the claim
(and the code's own comment) state. -/
theorem claim5_encode_image_quick_bug :
    encode_image c5_input true =
      Except.error (PyErr.unboundLocalError "initial_shape") ∧
    (sum_dims_1_2 c5_input).length = c5_input.batch * c5_input.width ∧
    (sum_dims_1_2 c5_input).length ≠ c5_input.channels := by
  refine ⟨rfl, by decide, by decide⟩

/-- The fields of the `Options` object that `generate_embeddings` reads
(`options/options.py` is configuration outside this repository's three
source modules). -/
structure Opt where
  lll_neighbors : Nat
  n_clusters : Nat
deriving DecidableEq, Repr

/-- One row of the saved `data/embeddings.csv`:
`path, embeddings_x/y/z, labels` (`embedding.py:132-135`). -/
structure EmbedRow where
  path : String
  coords : List Int
  label : Nat
deriving DecidableEq, Repr

/-- The encoding loop (`embedding.py:94-104`): each image's encoder output
goes through `encode_image`; the loop also leaves behind the LAST
iteration's `initial_shape` (`none` when the loop body never ran).  An
exception in the body aborts the whole loop. -/
def encode_loop (quick : Bool) :
    List (String × Tensor4) →
    Except PyErr (List (String × List Int) × Option (List Nat))
  | [] => Except.ok ([], none)
  | (p, t) :: rest =>
    match encode_image t quick with
    | Except.error e => Except.error e
    | Except.ok (v, s) =>
      match encode_loop quick rest with
      | Except.error e => Except.error e
      | Except.ok (vs, last) => Except.ok ((p, v) :: vs, some (last.getD s))

/-- `embedding.py:91-115`: regenerate the encodings when `reencode` is set
or no `data/encodings.csv` exists, else load the stored rows.  After the
regeneration loop, the print at line 108 reads the loop variables
`encoding` and `initial_shape`, which raises `NameError` when the dataset
was empty. -/
def gen_encodings (images : List (String × Tensor4))
    (stored : List (String × List Int))
    (enc_csv_exists reencode quick : Bool) :
    Except PyErr (List (String × List Int) × Option (List Nat)) :=
  if reencode || !enc_csv_exists then
    match encode_loop quick images with
    | Except.error e => Except.error e
    | Except.ok (rows, last) =>
      match last with
      | none => Except.error (PyErr.nameError "encoding")
      | some s => Except.ok (rows, some s)
  else
    Except.ok (stored, none)

/-- `decode_images` (`embedding.py:51-60`): reshape each centroid to the
remembered shape and run it through `model.decoder`, keyed `label_{i}`. -/
def decode_images (decoder : List Int → List Nat → Tensor4)
    (centroid_list : List (List Int)) (out_shape : List Nat) :
    List (String × Tensor4) :=
  centroid_list.enum.map (fun ic =>
    ("label_" ++ toString ic.1, decoder ic.2 out_shape))

/-- `embedding.py:126-129`: centroids are decoded into images exactly when
`reencode and not quick`; otherwise `label_images = None`. -/
def label_images_step (decoder : List Int → List Nat → Tensor4)
    (centroids : List (List Int)) (last : Option (List Nat))
    (reencode quick : Bool) :
    Except PyErr (Option (List (String × Tensor4))) :=
  if reencode && !quick then
    match last with
    | some s => Except.ok (some (decode_images decoder centroids s))
    | none => Except.error (PyErr.nameError "initial_shape")
  else
    Except.ok none

/-- Zipping paths with their embedding coordinates and cluster labels
(`embedding.py:132-135`). -/
def build_rows : List (String × List Int) → List (List Int) → List Nat →
    List EmbedRow
  | (p, _) :: rs, c :: cs, l :: ls => ⟨p, c, l⟩ :: build_rows rs cs ls
  | _, _, _ => []

/-- The pandas column assignments `encodings[[...]] = embeds` and
`embeddings["labels"] = labels` require as many rows as the frame has
(`embedding.py:132-134`); with matching lengths they attach the three
embedding coordinates and the label to every row. -/
def assemble_table (rows : List (String × List Int))
    (embeds : List (List Int)) (labels : List Nat) :
    Except PyErr (List EmbedRow) :=
  if embeds.length ≠ rows.length then
    Except.error (PyErr.valueError "Columns must be same length as key")
  else if labels.length ≠ rows.length then
    Except.error (PyErr.valueError "Length of values does not match length of index")
  else
    Except.ok (build_rows rows embeds labels)

/-- `generate_embeddings` (`embedding.py:15-142`).  The sklearn calls are
parameters: `lle rows n_neighbors n_components` stands for
`locally_linear_embedding` (the returned error term is dropped by the
source, so only the embedding is modelled) and `kmeans rows n_clusters`
returns `(centroids, labels, inertia)`.  `decoder` stands for
`model.decoder` after the reshape; `images` pairs each dataset path with
the encoder output the trained model produces on it.  Model (re)training
and checkpoint loading (`embedding.py:67-83`) configure that model and are
not otherwise observable here. -/
def generate_embeddings (opt : Opt)
    (lle : List (List Int) → Nat → Nat → List (List Int))
    (kmeans : List (List Int) → Nat → List (List Int) × List Nat × Int)
    (decoder : List Int → List Nat → Tensor4)
    (images : List (String × Tensor4))
    (stored : List (String × List Int))
    (enc_csv_exists reencode quick : Bool) :
    Except PyErr (List EmbedRow × Option (List (String × Tensor4))) :=
  match gen_encodings images stored enc_csv_exists reencode quick with
  | Except.error e => Except.error e
  | Except.ok (rows, last) =>
    match label_images_step decoder
        (kmeans (rows.map Prod.snd) opt.n_clusters).1 last reencode quick with
    | Except.error e => Except.error e
    | Except.ok label_images =>
      match assemble_table rows (lle (rows.map Prod.snd) opt.lll_neighbors 3)
          (kmeans (rows.map Prod.snd) opt.n_clusters).2.1 with
      | Except.error e => Except.error e
      | Except.ok table => Except.ok (table, label_images)

theorem build_rows_mem (ps : List (String × List Int)) (cs : List (List Int))
    (ls : List Nat) (r : EmbedRow) (hr : r ∈ build_rows ps cs ls) :
    r.coords ∈ cs ∧ r.label ∈ ls := by
  induction ps generalizing cs ls with
  | nil => simp [build_rows] at hr
  | cons p rest ih =>
    obtain ⟨p1, p2⟩ := p
    cases cs with
    | nil => simp [build_rows] at hr
    | cons c cs' =>
      cases ls with
      | nil => simp [build_rows] at hr
      | cons l ls' =>
        simp only [build_rows, List.mem_cons] at hr
        rcases hr with hr | hr
        · subst hr
          exact ⟨List.mem_cons_self _ _, List.mem_cons_self _ _⟩
        · obtain ⟨h1, h2⟩ := ih cs' ls' hr
          exact ⟨List.mem_cons_of_mem _ h1, List.mem_cons_of_mem _ h2⟩

theorem assemble_table_ok (rows : List (String × List Int))
    (embeds : List (List Int)) (labels : List Nat) (table : List EmbedRow)
    (h : assemble_table rows embeds labels = Except.ok table) :
    table = build_rows rows embeds labels := by
  unfold assemble_table at h
  split_ifs at h
  exact (Except.ok.injEq _ _ ▸ h).symm

/-- C4: under `locally_linear_embedding`'s contract (each returned row has
`n_components` coordinates), every row of the table that
`generate_embeddings` produces carries exactly three embedding
coordinates — the call site passes `n_components = 3`. -/
theorem claim4_three_embedding_coords (opt : Opt)
    (lle : List (List Int) → Nat → Nat → List (List Int))
    (kmeans : List (List Int) → Nat → List (List Int) × List Nat × Int)
    (decoder : List Int → List Nat → Tensor4)
    (images : List (String × Tensor4)) (stored : List (String × List Int))
    (enc_csv_exists reencode quick : Bool)
    (table : List EmbedRow) (li : Option (List (String × Tensor4)))
    (hlle : ∀ e nb nc, ∀ v ∈ lle e nb nc, v.length = nc)
    (hok : generate_embeddings opt lle kmeans decoder images stored
      enc_csv_exists reencode quick = Except.ok (table, li)) :
    ∀ r ∈ table, r.coords.length = 3 := by
  intro r hr
  unfold generate_embeddings at hok
  cases hge : gen_encodings images stored enc_csv_exists reencode quick with
  | error e => rw [hge] at hok; exact Except.noConfusion hok
  | ok rl =>
    obtain ⟨rows, last⟩ := rl
    rw [hge] at hok
    dsimp only at hok
    cases hli : label_images_step decoder
        (kmeans (rows.map Prod.snd) opt.n_clusters).1 last reencode quick with
    | error e => rw [hli] at hok; exact Except.noConfusion hok
    | ok limg =>
      rw [hli] at hok
      dsimp only at hok
      cases hat : assemble_table rows
          (lle (rows.map Prod.snd) opt.lll_neighbors 3)
          (kmeans (rows.map Prod.snd) opt.n_clusters).2.1 with
      | error e => rw [hat] at hok; exact Except.noConfusion hok
      | ok table' =>
        rw [hat] at hok
        dsimp only at hok
        have hpair : table' = table ∧ limg = li := by
          have := (Except.ok.injEq _ _).mp hok
          exact ⟨congrArg Prod.fst this, congrArg Prod.snd this⟩
        have htab := assemble_table_ok _ _ _ _ hat
        rw [← hpair.1, htab] at hr
        have hmem := (build_rows_mem _ _ _ r hr).1
        exact hlle (rows.map Prod.snd) opt.lll_neighbors 3 r.coords hmem

/-- C7: under `k_means`'s contract (one label per sample, each below
`n_clusters`) and a positive `opt.n_clusters`, every row of the produced
table carries one cluster label smaller than `opt.n_clusters`. -/
theorem claim7_kmeans_labels (opt : Opt)
    (lle : List (List Int) → Nat → Nat → List (List Int))
    (kmeans : List (List Int) → Nat → List (List Int) × List Nat × Int)
    (decoder : List Int → List Nat → Tensor4)
    (images : List (String × Tensor4)) (stored : List (String × List Int))
    (enc_csv_exists reencode quick : Bool)
    (table : List EmbedRow) (li : Option (List (String × Tensor4)))
    (hkm : ∀ e k, 0 < k → ∀ l ∈ (kmeans e k).2.1, l < k)
    (hk : 0 < opt.n_clusters)
    (hok : generate_embeddings opt lle kmeans decoder images stored
      enc_csv_exists reencode quick = Except.ok (table, li)) :
    ∀ r ∈ table, r.label < opt.n_clusters := by
  intro r hr
  unfold generate_embeddings at hok
  cases hge : gen_encodings images stored enc_csv_exists reencode quick with
  | error e => rw [hge] at hok; exact Except.noConfusion hok
  | ok rl =>
    obtain ⟨rows, last⟩ := rl
    rw [hge] at hok
    dsimp only at hok
    cases hli : label_images_step decoder
        (kmeans (rows.map Prod.snd) opt.n_clusters).1 last reencode quick with
    | error e => rw [hli] at hok; exact Except.noConfusion hok
    | ok limg =>
      rw [hli] at hok
      dsimp only at hok
      cases hat : assemble_table rows
          (lle (rows.map Prod.snd) opt.lll_neighbors 3)
          (kmeans (rows.map Prod.snd) opt.n_clusters).2.1 with
      | error e => rw [hat] at hok; exact Except.noConfusion hok
      | ok table' =>
        rw [hat] at hok
        dsimp only at hok
        have hpair : table' = table := by
          have := (Except.ok.injEq _ _).mp hok
          exact congrArg Prod.fst this
        have htab := assemble_table_ok _ _ _ _ hat
        rw [← hpair, htab] at hr
        have hmem := (build_rows_mem _ _ _ r hr).2
        exact hkm (rows.map Prod.snd) opt.n_clusters hk r.label hmem

/-- C10: whenever `generate_embeddings` returns, its `label_images`
component is `Some` decoded-centroid images exactly when `reencode` was
set and `quick` was not, and `None` in every other returning case. -/
theorem claim10_label_images_condition (opt : Opt)
    (lle : List (List Int) → Nat → Nat → List (List Int))
    (kmeans : List (List Int) → Nat → List (List Int) × List Nat × Int)
    (decoder : List Int → List Nat → Tensor4)
    (images : List (String × Tensor4)) (stored : List (String × List Int))
    (enc_csv_exists reencode quick : Bool)
    (table : List EmbedRow) (li : Option (List (String × Tensor4)))
    (hok : generate_embeddings opt lle kmeans decoder images stored
      enc_csv_exists reencode quick = Except.ok (table, li)) :
    li.isSome = (reencode && !quick) := by
  unfold generate_embeddings at hok
  cases hge : gen_encodings images stored enc_csv_exists reencode quick with
  | error e => rw [hge] at hok; exact Except.noConfusion hok
  | ok rl =>
    obtain ⟨rows, last⟩ := rl
    rw [hge] at hok
    dsimp only at hok
    cases hli : label_images_step decoder
        (kmeans (rows.map Prod.snd) opt.n_clusters).1 last reencode quick with
    | error e => rw [hli] at hok; exact Except.noConfusion hok
    | ok limg =>
      rw [hli] at hok
      dsimp only at hok
      cases hat : assemble_table rows
          (lle (rows.map Prod.snd) opt.lll_neighbors 3)
          (kmeans (rows.map Prod.snd) opt.n_clusters).2.1 with
      | error e => rw [hat] at hok; exact Except.noConfusion hok
      | ok table' =>
        rw [hat] at hok
        dsimp only at hok
        have hpair : limg = li := by
          have := (Except.ok.injEq _ _).mp hok
          exact congrArg Prod.snd this
        rw [← hpair]
        unfold label_images_step at hli
        split_ifs at hli with hc
        · cases last with
          | none => exact Except.noConfusion hli
          | some s =>
            have := (Except.ok.injEq _ _).mp hli
            rw [← this, hc]
            rfl
        · have := (Except.ok.injEq _ _).mp hli
          rw [← this]
          cases reencode <;> cases quick <;> simp_all

/-- A concrete stand-in for `locally_linear_embedding` satisfying its
contract: one `n_components`-long row per input row. -/
def lle_demo : List (List Int) → Nat → Nat → List (List Int) :=
  fun e _ nc => e.map (fun _ => List.replicate nc 0)

/-- A concrete stand-in for `k_means` satisfying its contract: one label
per sample, all inside the cluster range. -/
def kmeans_demo : List (List Int) → Nat → List (List Int) × List Nat × Int :=
  fun e _ => (e, e.map (fun _ => 0), 0)

/-- A concrete stand-in for `model.decoder`. -/
def decoder_demo : List Int → List Nat → Tensor4 :=
  fun _ _ => ⟨0, 0, 0, 0, []⟩

/-- A one-image dataset with its encoder output. -/
def images_demo : List (String × Tensor4) :=
  [("a", ⟨1, 1, 1, 1, [5]⟩)]

def opt_demo : Opt := ⟨5, 2⟩

/-- Witness for C4: a concrete successful `reencode = True, quick = False`
run whose single row carries three embedding coordinates. -/
theorem claim4_three_embedding_coords_witness :
    (∀ e nb nc, ∀ v ∈ lle_demo e nb nc, v.length = nc) ∧
    (∀ r ∈ [({ path := "a", coords := [0, 0, 0], label := 0 } : EmbedRow)],
      r.coords.length = 3) := by
  have hlle : ∀ e nb nc, ∀ v ∈ lle_demo e nb nc, v.length = nc := by
    intro e nb nc v hv
    simp only [lle_demo, List.mem_map] at hv
    obtain ⟨a, _, ha⟩ := hv
    rw [← ha]
    simp
  refine ⟨hlle, ?_⟩
  exact claim4_three_embedding_coords opt_demo lle_demo kmeans_demo
    decoder_demo images_demo [] false true false
    [{ path := "a", coords := [0, 0, 0], label := 0 }]
    (some [("label_0", ⟨0, 0, 0, 0, []⟩)]) hlle rfl

/-- Witness for C7: the same concrete run, whose single row's cluster
label is below `n_clusters = 2`. -/
theorem claim7_kmeans_labels_witness :
    (∀ e k, 0 < k → ∀ l ∈ (kmeans_demo e k).2.1, l < k) ∧
    0 < opt_demo.n_clusters ∧
    (∀ r ∈ [({ path := "a", coords := [0, 0, 0], label := 0 } : EmbedRow)],
      r.label < opt_demo.n_clusters) := by
  have hkm : ∀ e k, 0 < k → ∀ l ∈ (kmeans_demo e k).2.1, l < k := by
    intro e k hk l hl
    simp only [kmeans_demo, List.mem_map] at hl
    obtain ⟨a, _, ha⟩ := hl
    rw [← ha]
    exact hk
  refine ⟨hkm, by decide, ?_⟩
  exact claim7_kmeans_labels opt_demo lle_demo kmeans_demo
    decoder_demo images_demo [] false true false
    [{ path := "a", coords := [0, 0, 0], label := 0 }]
    (some [("label_0", ⟨0, 0, 0, 0, []⟩)]) hkm (by decide) rfl

/-- Witness for C10: the same concrete run returns decoded centroid
images, matching `reencode && not quick = true`. -/
theorem claim10_label_images_condition_witness :
    (Option.some [("label_0", (⟨0, 0, 0, 0, []⟩ : Tensor4))]).isSome =
      (true && !false) :=
  claim10_label_images_condition opt_demo lle_demo kmeans_demo
    decoder_demo images_demo [] false true false
    [{ path := "a", coords := [0, 0, 0], label := 0 }]
    (some [("label_0", ⟨0, 0, 0, 0, []⟩)]) rfl
